import Mathlib

/-!
Verification development for the object-locking subsystem (biased locking
and monitor lifecycle) whose interfaces are declared in
`src/hotspot/share/runtime/biasedLocking.hpp` and
`src/hotspot/share/runtime/synchronizer.hpp`.

The repository ships only the two interface headers; the function bodies
(`biasedLocking.cpp`, `synchronizer.cpp`) are not part of the excerpt.
All operational definitions below are therefore modelled from the
specification (spec.md sections 3 and 4) and from the detailed algorithm
description in the header comment of `biasedLocking.hpp`.
-/



/-- A thread identifier (`JavaThread*` in the source). -/
abbrev ThreadId := Nat

/-- A monitor identifier. -/
abbrev MonId := Nat

/-- Modelled from the spec: the logical mark-word variants of spec.md
section 3 ("Unlocked, Biased, ThinLocked, FatLocked"); the C++ bit-level
`markWord` codec is external to the excerpt.  Age bits and the GC-mark
variant are irrelevant to the claims and omitted. -/
inductive Header where
  | unlocked (hash : Option Nat)
  | biased (owner : Option ThreadId) (epoch : Nat)
  | thinLocked (owner : ThreadId)
  | fatLocked (mid : MonId)
deriving DecidableEq, Repr

/-- Modelled from the spec: the per-type prototype header of spec.md
section 3 — whether biasing is currently permitted for the type, and the
type's current bias epoch. -/
structure KlassState where
  biasable : Bool
  epoch : Nat
deriving DecidableEq, Repr

/-- Scheduling effect of a lock operation on the calling thread:
nothing, block the caller (contended acquire), or wake another thread
(monitor hand-off on release). -/
inductive Effect where
  | noEffect
  | blockCaller
  | wakeOther (t : ThreadId)
deriving DecidableEq, Repr

/-- Result of one `fast_enter` call: the object's new header, the
displaced-header value stored in the stack `BasicLock` record (`none` is
the recursion sentinel / no store), whether a bias-revocation transition
was observed, how many header words were written, and the scheduling
effect. -/
structure EnterResult where
  header : Header
  lockRec : Option Header
  didRevoke : Bool
  headerWrites : Nat
  effect : Effect
deriving DecidableEq, Repr

/-- Modelled from the spec: `ObjectSynchronizer::fast_enter`
(synchronizer.hpp line 75; body not in the excerpt), following the
five-step algorithm of spec.md section 4.2 and the header comment of
biasedLocking.hpp.  `en` is the global `BiasedLocking::enabled()` switch;
`k` the object's type prototype state. -/
def fast_enter (en : Bool) (k : KlassState) (h : Header) (self : ThreadId)
    (attempt_rebias : Bool) : EnterResult :=
  match h with
  | Header.biased (some o) e =>
      if en ∧ k.biasable then
        if e = k.epoch then
          if o = self then
            ⟨h, none, false, 0, Effect.noEffect⟩
          else
            ⟨Header.thinLocked self, some (Header.unlocked none), true, 2, Effect.noEffect⟩
        else
          if attempt_rebias then
            ⟨Header.biased (some self) k.epoch, none, true, 1, Effect.noEffect⟩
          else
            ⟨Header.thinLocked self, some (Header.unlocked none), true, 2, Effect.noEffect⟩
      else
        ⟨Header.thinLocked self, some (Header.unlocked none), true, 2, Effect.noEffect⟩
  | Header.biased none e =>
      if en ∧ k.biasable then
        if e = k.epoch then
          ⟨Header.biased (some self) e, none, false, 1, Effect.noEffect⟩
        else
          if attempt_rebias then
            ⟨Header.biased (some self) k.epoch, none, true, 1, Effect.noEffect⟩
          else
            ⟨Header.thinLocked self, some (Header.unlocked none), true, 2, Effect.noEffect⟩
      else
        ⟨Header.thinLocked self, some (Header.unlocked none), true, 2, Effect.noEffect⟩
  | Header.unlocked hash =>
      ⟨Header.thinLocked self, some (Header.unlocked hash), false, 1, Effect.noEffect⟩
  | Header.thinLocked o =>
      if o = self then
        ⟨h, none, false, 0, Effect.noEffect⟩
      else
        ⟨Header.fatLocked 0, none, false, 1, Effect.blockCaller⟩
  | Header.fatLocked _ =>
      ⟨h, none, false, 0, Effect.blockCaller⟩

/-- Modelled from the spec: the heavyweight `ObjectMonitor` of spec.md
section 3 — owner, recursion count, wait set, blocked-acquirer queue and
the displaced mark word.  The C++ class is external to the excerpt. -/
structure ObjectMonitor where
  owner : Option ThreadId
  recursions : Nat
  waitSet : List ThreadId
  entryQueue : List ThreadId
  displaced : Header
deriving DecidableEq, Repr

/-- Modelled from the spec: the monitor-release step of spec.md section
4.2 — "a fat lock delegates to the monitor's release, which must
correctly hand off to a queued waiter if present or clear ownership".
Returns the new monitor, the scheduling effect and an
IllegalMonitorStateException flag. -/
def monExit (m : ObjectMonitor) (self : ThreadId) : ObjectMonitor × Effect × Bool :=
  if m.owner = some self then
    if m.recursions ≠ 0 then
      ({ m with recursions := m.recursions - 1 }, Effect.noEffect, false)
    else
      match m.entryQueue with
      | [] => ({ m with owner := none }, Effect.noEffect, false)
      | t :: rest => ({ m with owner := some t, entryQueue := rest }, Effect.wakeOther t, false)
  else
    (m, Effect.noEffect, true)

/-- Result of one `fast_exit`/`slow_exit` call: new header, new monitor
(for the fat path), header writes, scheduling effect, and an
IllegalMonitorStateException flag. -/
structure ExitResult where
  header : Header
  mon : Option ObjectMonitor
  headerWrites : Nat
  effect : Effect
  imse : Bool
deriving DecidableEq, Repr

/-- Modelled from the spec: `ObjectSynchronizer::fast_exit`
(synchronizer.hpp line 77; body not in the excerpt), following spec.md
section 4.2: a biased lock performs no header write on exit; a thin lock
restores the displaced header (the `none` lock record is the recursive
sentinel and writes nothing); a fat lock delegates to the monitor's
release. -/
def fast_exit (h : Header) (lockRec : Option Header) (self : ThreadId)
    (mon : Option ObjectMonitor) : ExitResult :=
  match h with
  | Header.biased _ _ => ⟨h, mon, 0, Effect.noEffect, false⟩
  | Header.thinLocked o =>
      match lockRec with
      | none => ⟨h, mon, 0, Effect.noEffect, false⟩
      | some d =>
          if o = self then ⟨d, mon, 1, Effect.noEffect, false⟩
          else ⟨h, mon, 0, Effect.noEffect, true⟩
  | Header.fatLocked _ =>
      match mon with
      | some m =>
          match monExit m self with
          | (m2, eff, err) => ⟨h, some m2, 0, eff, err⟩
      | none => ⟨h, none, 0, Effect.noEffect, false⟩
  | Header.unlocked _ => ⟨h, mon, 0, Effect.noEffect, true⟩

/-- Modelled from the spec: `ObjectSynchronizer::slow_exit`
(synchronizer.hpp line 83; body not in the excerpt).  The slow path
performs the same representation-directed release as `fast_exit`
(synchronizer.hpp comments: slow variants handle the cases the fast
check did not). -/
def slow_exit (h : Header) (lockRec : Option Header) (self : ThreadId)
    (mon : Option ObjectMonitor) : ExitResult :=
  fast_exit h lockRec self mon

/-- Iterated lock entries: `n` successive `fast_enter` calls by `self`,
pushing each stored lock record on a stack and summing header writes. -/
def doEnters (en : Bool) (k : KlassState) (self : ThreadId) :
    Nat → Header → List (Option Header) → Header × List (Option Header) × Nat
  | 0, h, st => (h, st, 0)
  | n + 1, h, st =>
      match fast_enter en k h self false with
      | r =>
          match doEnters en k self n r.header (r.lockRec :: st) with
          | (h2, st2, w) => (h2, st2, r.headerWrites + w)

/-- Iterated lock exits: `n` successive `fast_exit` calls by `self`,
popping one lock record per call and summing header writes. -/
def doExits (self : ThreadId) :
    Nat → Header → List (Option Header) → Header × List (Option Header) × Nat
  | 0, h, st => (h, st, 0)
  | n + 1, h, st =>
      match st with
      | [] => (h, [], 0)
      | lr :: rest =>
          match fast_exit h lr self none with
          | r =>
              match doExits self n r.header rest with
              | (h2, st2, w) => (h2, st2, r.headerWrites + w)

/-- The revocation outcome codes of `BiasedLocking::Condition`
(biasedLocking.hpp lines 168-173). -/
inductive Condition where
  | NOT_BIASED
  | BIAS_REVOKED
  | BIAS_REVOKED_AND_REBIASED
  | NOT_REVOKED
deriving DecidableEq, Repr

/-- The integer values assigned to `BiasedLocking::Condition` in
biasedLocking.hpp lines 169-172. -/
def Condition.toInt : Condition → Nat
  | Condition.NOT_BIASED => 1
  | Condition.BIAS_REVOKED => 2
  | Condition.BIAS_REVOKED_AND_REBIASED => 3
  | Condition.NOT_REVOKED => 4

/-- Modelled from the spec: the world of one data type — its prototype
state and the headers of its instances (spec.md section 3: the
class-wide prototype header is shared by all instances of a type). -/
structure TypeWorld where
  klass : KlassState
  objs : List Header
deriving DecidableEq, Repr

/-- Revoking a bias restores an unbiased header (biasedLocking.hpp
header comment: the displaced header is a well-known value since no
identity hash nor age bits are maintained in the biased state). -/
def revokeHeader : Header → Header
  | Header.biased _ _ => Header.unlocked none
  | h => h

/-- Modelled from the spec:
`BiasedLocking::bulk_revoke_or_rebias_at_safepoint` (biasedLocking.hpp
line 177; body not in the excerpt), following spec.md section 4.3: bulk
rebias increments the type's epoch (invalidating all existing biases in
O(1)) and, if `attempt_rebias`, immediately biases the triggering object
(index `i`) to the requester; bulk revoke additionally resets the type's
prototype header to permanently disallow biasing and revokes every
instance's bias. -/
def bulk_revoke_or_rebias_at_safepoint (w : TypeWorld) (i : Nat)
    (bulk_rebias attempt_rebias : Bool) (requester : ThreadId) : TypeWorld × Condition :=
  if bulk_rebias ∧ w.klass.biasable then
    if attempt_rebias then
      (⟨⟨true, w.klass.epoch + 1⟩,
          w.objs.set i (Header.biased (some requester) (w.klass.epoch + 1))⟩,
        Condition.BIAS_REVOKED_AND_REBIASED)
    else
      (⟨⟨true, w.klass.epoch + 1⟩, w.objs⟩, Condition.BIAS_REVOKED)
  else
    (⟨⟨false, w.klass.epoch⟩, w.objs.map revokeHeader⟩, Condition.BIAS_REVOKED)

/-- Modelled from the spec: `BiasedLocking::revoke_and_rebias`
(biasedLocking.hpp line 192; body not in the excerpt): on a biased
header, rebias to the requester when `attempt_rebias` is set and the
prototype still permits biasing, otherwise revoke to an unbiased
header; a non-biased header needs nothing (`NOT_BIASED`). -/
def revoke_and_rebias (k : KlassState) (h : Header) (attempt_rebias : Bool)
    (requester : ThreadId) : Header × Condition :=
  match h with
  | Header.biased _ _ =>
      if attempt_rebias ∧ k.biasable then
        (Header.biased (some requester) k.epoch, Condition.BIAS_REVOKED_AND_REBIASED)
      else
        (Header.unlocked none, Condition.BIAS_REVOKED)
  | _ => (h, Condition.NOT_BIASED)

/-- The epoch embedded in a biased header (0 for other variants). -/
def hdrEpoch : Header → Nat
  | Header.biased _ e => e
  | _ => 0

/-- Modelled from the spec: one object together with the monitor (if
any) its mark word currently references (spec.md section 3). -/
structure ObjState where
  header : Header
  mon : Option ObjectMonitor
deriving DecidableEq, Repr

/-- Eligibility for deflation, spec.md section 4.5: "eligible for
deflation iff unowned and its wait/entry queues are empty". -/
def eligibleForDeflation (m : ObjectMonitor) : Bool :=
  m.owner == none && m.waitSet.isEmpty && m.entryQueue.isEmpty

/-- Modelled from the spec: `ObjectSynchronizer::deflate_monitor`
(synchronizer.hpp lines 148-150; body not in the excerpt), following
spec.md section 4.5: if the monitor is eligible, clear its association
with the object's mark word (restoring the displaced, thin-lock
compatible or unlocked header), move it to the free list
(`freeHeadp`/`freeTailp`) and report true; otherwise leave everything
in place and report false. -/
def deflate_monitor (s : ObjState) (free : List ObjectMonitor) :
    ObjState × List ObjectMonitor × Bool :=
  match s.mon with
  | some m =>
      if eligibleForDeflation m then
        (⟨m.displaced, none⟩, free ++ [m], true)
      else
        (s, free, false)
  | none => (s, free, false)

/-- Modelled from the spec: `ObjectSynchronizer::inflate`
(synchronizer.hpp line 116; body not in the excerpt): convert a
lightweight (unlocked / thin / revoked-biased) lock into a heavyweight
monitor, saving the object's displaced header in the monitor and
pointing the mark word at the monitor.  An already fat lock is left
unchanged. -/
def inflate (s : ObjState) : ObjState :=
  match s.mon with
  | some _ => s
  | none =>
      match s.header with
      | Header.unlocked hash =>
          ⟨Header.fatLocked 0, some ⟨none, 0, [], [], Header.unlocked hash⟩⟩
      | Header.thinLocked o =>
          ⟨Header.fatLocked 0, some ⟨some o, 0, [], [], Header.unlocked none⟩⟩
      | Header.biased _ _ =>
          ⟨Header.fatLocked 0, some ⟨none, 0, [], [], Header.unlocked none⟩⟩
      | Header.fatLocked m => ⟨Header.fatLocked m, s.mon⟩

/-- `ObjectSynchronizer::current_thread_holds_lock` restricted to a fat
monitor: the thread owns the monitor (synchronizer.hpp line 127; body
not in the excerpt, modelled from the spec). -/
def current_thread_holds_lock (t : ThreadId) (m : ObjectMonitor) : Bool :=
  m.owner == some t

/-- Modelled from the spec: `ObjectSynchronizer::complete_exit`
(synchronizer.hpp line 106; used by class loading to "free a lock ...
and reclaim it with the original recursion count"): fully releases the
monitor, returning the prior recursion count. -/
def complete_exit (m : ObjectMonitor) (t : ThreadId) : ObjectMonitor × Nat :=
  if m.owner = some t then
    ({ m with owner := none, recursions := 0 }, m.recursions)
  else
    (m, 0)

/-- Modelled from the spec: `ObjectSynchronizer::reenter`
(synchronizer.hpp line 107): reacquire an unowned monitor, restoring
the given recursion count. -/
def reenter (m : ObjectMonitor) (t : ThreadId) (recursion : Nat) : ObjectMonitor :=
  if m.owner = none then
    { m with owner := some t, recursions := recursion }
  else
    m

/-- The startup delay (milliseconds) before the scheduled task enables
biased locking (biasedLocking.hpp lines 182-185: `init` "schedules a
PeriodicTask to turn on biased locking a few seconds into the VM run";
the HotSpot tunable defaults to 4000 ms). -/
def BiasedLockingStartupDelay : Nat := 4000

/-- Modelled from the spec: the VM-global biased-locking switch state —
a clock, the flag read by `BiasedLocking::enabled()` (biasedLocking.hpp
line 189), and the scheduled time at which the pending periodic task
will set the flag. -/
structure VMState where
  clock : Nat
  biasedEnabled : Bool
  pendingEnable : Option Nat
deriving DecidableEq, Repr

/-- Modelled from the spec: `BiasedLocking::init` (biasedLocking.hpp
line 185; body not in the excerpt): leaves biasing disabled and only
schedules a task that turns it on `BiasedLockingStartupDelay` time
units into the run. -/
def biasedLocking_init (v : VMState) : VMState :=
  ⟨v.clock, false, some (v.clock + BiasedLockingStartupDelay)⟩

/-- Modelled from the spec: `BiasedLocking::enabled` (biasedLocking.hpp
line 189; body not in the excerpt): the global switch for leaving
biased locking disabled for the first part of a run. -/
def biasedLocking_enabled (v : VMState) : Bool :=
  v.biasedEnabled

/-- One time step: the clock advances and the scheduled periodic task
fires (setting the enabled flag) once its due time is reached. -/
def vmTick (v : VMState) : VMState :=
  match v.pendingEnable with
  | some due =>
      if due ≤ v.clock + 1 then ⟨v.clock + 1, true, none⟩
      else ⟨v.clock + 1, v.biasedEnabled, some due⟩
  | none => ⟨v.clock + 1, v.biasedEnabled, none⟩

/-- Iterated time steps. -/
def vmRun : Nat → VMState → VMState
  | 0, v => v
  | n + 1, v => vmRun n (vmTick v)

/-- The state an `ObjectLocker` carries: the object's header and the
displaced-header slot of its embedded `BasicLock` (synchronizer.hpp
lines 207-212: `_obj`, `_lock`, `_dolock`). -/
structure LockerState where
  header : Header
  basicLock : Option Header
deriving DecidableEq, Repr

/-- Modelled from the spec: the `ObjectLocker` constructor
(synchronizer.hpp line 214; body not in the excerpt): when `doLock` is
set it acquires the object's lock through
`ObjectSynchronizer::fast_enter` with `attempt_rebias = false`,
storing the displaced header in its own `BasicLock`. -/
def objectLocker_construct (doLock : Bool) (en : Bool) (k : KlassState)
    (t : ThreadId) (h : Header) : LockerState :=
  if doLock then
    match fast_enter en k h t false with
    | r => ⟨r.header, r.lockRec⟩
  else
    ⟨h, none⟩

/-- Modelled from the spec: the `ObjectLocker` destructor
(synchronizer.hpp line 215; body not in the excerpt): when `doLock` is
set it releases the lock exactly once through
`ObjectSynchronizer::fast_exit` with its own `BasicLock`.  Returns the
final header and the IllegalMonitorStateException flag. -/
def objectLocker_destruct (doLock : Bool) (t : ThreadId) (s : LockerState) :
    Header × Bool :=
  if doLock then
    match fast_exit s.header s.basicLock t none with
    | r => (r.header, r.imse)
  else
    (s.header, false)

/-- The four kinds of monitor list of synchronizer.hpp: a thread-local
free list, a thread-local in-use list, the global free list `gFreeList`
(line 183) and the global in-use list `gOmInUseList` (line 186). -/
inductive Loc where
  | tFree (t : ThreadId)
  | tInUse (t : ThreadId)
  | gFreeL
  | gInUseL
deriving DecidableEq, Repr

/-- Modelled from the spec: the monitor pool state — the contents of
every monitor list, plus the number of monitor slots ever allocated
from fresh blocks (ids below `nextId` exist, spec.md section 4.4). -/
structure MonPool where
  lists : Loc → List MonId
  nextId : Nat

/-- The membership invariant of spec.md section 3: each monitor is on
exactly one of the lists at any time — every list is duplicate-free,
no monitor is on two different lists, every listed monitor has been
allocated, and every allocated monitor is on some list. -/
def Exclusive (p : MonPool) : Prop :=
  (∀ l, (p.lists l).Nodup) ∧
  (∀ l1 l2 (m : Nat), l1 ≠ l2 → m ∈ p.lists l1 → m ∉ p.lists l2) ∧
  (∀ l (m : Nat), m ∈ p.lists l → m < p.nextId) ∧
  (∀ m : Nat, m < p.nextId → ∃ l, m ∈ p.lists l)

/-- Relink the first `kn` monitors of list `src` onto the front of list
`dst` — the pointer-relinking list move of spec.md section 3
("moving lists is a pointer-relinking operation, not a copy"). -/
def transfer (src dst : Loc) (kn : Nat) (p : MonPool) : MonPool :=
  ⟨fun l =>
      if l = src then (p.lists src).drop kn
      else if l = dst then (p.lists src).take kn ++ p.lists dst
      else p.lists l,
    p.nextId⟩

/-- `ObjectSynchronizer::_BLOCKSIZE` (synchronizer.hpp line 179). -/
def BLOCKSIZE : Nat := 128

/-- Modelled from the spec: allocating a fresh block of `BLOCKSIZE`
monitors and linking them into the allocating thread's free list
(spec.md section 4.4, global exhaustion case of `omAlloc`). -/
def freshBlock (t : ThreadId) (p : MonPool) : MonPool :=
  ⟨fun l =>
      if l = Loc.tFree t then
        (List.range BLOCKSIZE).map (fun j => p.nextId + j) ++ p.lists (Loc.tFree t)
      else p.lists l,
    p.nextId + BLOCKSIZE⟩

/-- Modelled from the spec: `ObjectSynchronizer::omAlloc`
(synchronizer.hpp line 110; body not in the excerpt), spec.md section
4.4: pop from the thread-local free list first; on local exhaustion
take a batch from the global free list; on global exhaustion allocate
a fresh block.  The obtained monitor moves to the thread's in-use
list. -/
def omAlloc (t : ThreadId) (p : MonPool) : MonPool :=
  if p.lists (Loc.tFree t) ≠ [] then
    transfer (Loc.tFree t) (Loc.tInUse t) 1 p
  else if p.lists Loc.gFreeL ≠ [] then
    transfer (Loc.tFree t) (Loc.tInUse t) 1 (transfer Loc.gFreeL (Loc.tFree t) BLOCKSIZE p)
  else
    transfer (Loc.tFree t) (Loc.tInUse t) 1 (freshBlock t p)

/-- Modelled from the spec: `ObjectSynchronizer::omRelease`
(synchronizer.hpp lines 111-112; body not in the excerpt), spec.md
section 4.4: return a monitor to the thread-local free list normally;
`FromPerThreadAlloc = false` forces return to the global free list. -/
def omRelease (t : ThreadId) (fromPerThreadAlloc : Bool) (p : MonPool) : MonPool :=
  transfer (Loc.tInUse t) (if fromPerThreadAlloc then Loc.tFree t else Loc.gFreeL) 1 p

/-- Modelled from the spec: `ObjectSynchronizer::omFlush`
(synchronizer.hpp line 113; body not in the excerpt), spec.md section
4.4: on thread termination, migrate the terminating thread's free and
in-use monitors to the corresponding global lists. -/
def omFlush (t : ThreadId) (p : MonPool) : MonPool :=
  transfer (Loc.tInUse t) Loc.gInUseL
      ((transfer (Loc.tFree t) Loc.gFreeL (p.lists (Loc.tFree t)).length p).lists
        (Loc.tInUse t)).length
    (transfer (Loc.tFree t) Loc.gFreeL (p.lists (Loc.tFree t)).length p)

/-- Modelled from the spec: the list effect of inflation (spec.md
section 4.5 arbiter discipline): the monitor used to inflate an object
comes off a free list via `omAlloc` and lands on the inflating
thread's in-use list. -/
def inflateListMove (t : ThreadId) (p : MonPool) : MonPool :=
  omAlloc t p

/-- Modelled from the spec: `deflate_monitor_list` over a thread-local
in-use list (synchronizer.hpp lines 145-147): the first `kn` scanned
monitors are scavenged back to the global free list. -/
def deflateThreadList (t : ThreadId) (kn : Nat) (p : MonPool) : MonPool :=
  transfer (Loc.tInUse t) Loc.gFreeL kn p

/-- Modelled from the spec: `deflate_monitor_list` over the global
in-use list `gOmInUseList`: scavenged monitors move to `gFreeList`. -/
def deflateGlobalList (kn : Nat) (p : MonPool) : MonPool :=
  transfer Loc.gInUseL Loc.gFreeL kn p

lemma doEnters_biased_self (k : KlassState) (t : ThreadId) (hb : k.biasable = true) :
    ∀ (n : Nat) (st : List (Option Header)),
      doEnters true k t n (Header.biased (some t) k.epoch) st
        = (Header.biased (some t) k.epoch, List.replicate n none ++ st, 0) := by
  intro n
  induction n with
  | zero => intro st; simp [doEnters]
  | succ n ih =>
      intro st
      have hstep : fast_enter true k (Header.biased (some t) k.epoch) t false
          = ⟨Header.biased (some t) k.epoch, none, false, 0, Effect.noEffect⟩ := by
        simp [fast_enter, hb]
      simp only [doEnters, hstep]
      rw [ih (none :: st)]
      have hrep : List.replicate n (none : Option Header) ++ none :: st
          = none :: (List.replicate n none ++ st) := by
        rw [List.append_cons, ← List.replicate_succ', List.replicate_succ, List.cons_append]
      rw [hrep]
      simp [List.replicate_succ]

lemma doExits_biased (t : ThreadId) (o : Option ThreadId) (e : Nat) :
    ∀ (n : Nat) (st : List (Option Header)),
      doExits t n (Header.biased o e) (List.replicate n none ++ st)
        = (Header.biased o e, st, 0) := by
  intro n
  induction n with
  | zero => intro st; simp [doExits]
  | succ n ih =>
      intro st
      simp only [List.replicate_succ, List.cons_append, doExits, fast_exit]
      rw [ih st]
      simp

/-- Claim C1: if an object is biased to thread `t1` and a different
thread `t2` performs a lock entry, the resulting header is never biased
to `t2` without a revoke transition having occurred; in particular an
epoch-matching bias owned by another thread always forces revocation
before the entry proceeds. -/
theorem fast_enter_no_silent_bias_hijack (en : Bool) (k : KlassState)
    (t1 t2 : ThreadId) (e : Nat) (ar : Bool) (hne : t1 ≠ t2) :
    (∀ e2, (fast_enter en k (Header.biased (some t1) e) t2 ar).header
        = Header.biased (some t2) e2 →
        (fast_enter en k (Header.biased (some t1) e) t2 ar).didRevoke = true) ∧
    (e = k.epoch →
        (fast_enter en k (Header.biased (some t1) e) t2 ar).didRevoke = true) ∧
    (fast_enter en k (Header.biased (some t1) e) t2 ar).didRevoke = true := by
  have hno : (t1 = t2) = False := by simp [hne]
  refine ⟨?_, ?_, ?_⟩ <;>
    · simp only [fast_enter, hno]
      split_ifs <;> simp_all

theorem fast_enter_no_silent_bias_hijack_witness :
    (1 : ThreadId) ≠ 2 ∧
    (fast_enter true ⟨true, 0⟩ (Header.biased (some 1) 0) 2 false).didRevoke = true := by
  refine ⟨by decide, ?_⟩
  exact (fast_enter_no_silent_bias_hijack true ⟨true, 0⟩ 1 2 0 false (by decide)).2.2

/-- Claim C2: for an object biased to the calling thread with matching
epoch, a sequence of `n ≥ 1` recursive `fast_enter` calls followed by
`n` `fast_exit` calls leaves the header word identical (the bias
persists across unlock) and performs zero header writes in both
phases. -/
theorem biased_recursive_reentry_free (k : KlassState) (t : ThreadId) (e n : Nat)
    (hb : k.biasable = true) (he : e = k.epoch) (hn : 1 ≤ n) :
    doExits t n (doEnters true k t n (Header.biased (some t) e) []).1
        (doEnters true k t n (Header.biased (some t) e) []).2.1
      = (Header.biased (some t) e, [], 0) ∧
    (doEnters true k t n (Header.biased (some t) e) []).2.2 = 0 := by
  subst he
  have h1 := doEnters_biased_self k t hb n []
  rw [h1]
  have h2 := doExits_biased t (some t) k.epoch n []
  simp only [List.append_nil] at h2
  simp [h2]

theorem biased_recursive_reentry_free_witness :
    ((⟨true, 0⟩ : KlassState).biasable = true ∧ (0 : Nat) = (⟨true, 0⟩ : KlassState).epoch
      ∧ 1 ≤ 3) ∧
    (doExits 5 3 (doEnters true ⟨true, 0⟩ 5 3 (Header.biased (some 5) 0) []).1
        (doEnters true ⟨true, 0⟩ 5 3 (Header.biased (some 5) 0) []).2.1
      = (Header.biased (some 5) 0, [], 0) ∧
    (doEnters true ⟨true, 0⟩ 5 3 (Header.biased (some 5) 0) []).2.2 = 0) :=
  ⟨⟨by decide, by decide, by decide⟩,
    biased_recursive_reentry_free ⟨true, 0⟩ 5 0 3 (by decide) (by decide) (by decide)⟩

/-- Claim C3: bulk rebias increments the type's epoch and writes no
per-object header except (under `attempt_rebias`) the trigger's; all
untouched previously biased instances become epoch-mismatched, they are
treated as revoked (`didRevoke`) on their next lock entry, and running
the operation twice in succession yields the same epoch-mismatch
outcome for all untouched instances. -/
theorem bulk_rebias_epoch_invalidation (w : TypeWorld) (i : Nat) (ar : Bool)
    (req : ThreadId) (hb : w.klass.biasable = true)
    (hwf : ∀ h ∈ w.objs, hdrEpoch h ≤ w.klass.epoch) :
    (bulk_revoke_or_rebias_at_safepoint w i true ar req).1.klass.epoch
        = w.klass.epoch + 1 ∧
    (∀ j, j ≠ i →
        (bulk_revoke_or_rebias_at_safepoint w i true ar req).1.objs[j]? = w.objs[j]?) ∧
    (∀ j, j ≠ i →
        (bulk_revoke_or_rebias_at_safepoint
            (bulk_revoke_or_rebias_at_safepoint w i true ar req).1
            i true ar req).1.objs[j]? = w.objs[j]?) ∧
    (∀ j o e, j ≠ i → w.objs[j]? = some (Header.biased o e) →
        e ≠ (bulk_revoke_or_rebias_at_safepoint w i true ar req).1.klass.epoch ∧
        e ≠ (bulk_revoke_or_rebias_at_safepoint
            (bulk_revoke_or_rebias_at_safepoint w i true ar req).1
            i true ar req).1.klass.epoch) ∧
    (∀ j o e, j ≠ i → w.objs[j]? = some (Header.biased o e) →
        ∀ t ar2, (fast_enter true
            (bulk_revoke_or_rebias_at_safepoint w i true ar req).1.klass
            (Header.biased o e) t ar2).didRevoke = true) := by
  have hepoch : ∀ (j : Nat) (o : Option ThreadId) (e : Nat),
      w.objs[j]? = some (Header.biased o e) → e ≤ w.klass.epoch := by
    intro j o e hj
    have hmem : Header.biased o e ∈ w.objs := List.mem_iff_getElem?.mpr ⟨j, hj⟩
    have := hwf _ hmem
    simpa [hdrEpoch] using this
  cases ar <;>
    · simp only [bulk_revoke_or_rebias_at_safepoint, hb, and_true, if_true, if_pos, ite_true,
        Bool.true_and, Bool.and_true]
      refine ⟨by simp, ?_, ?_, ?_, ?_⟩
      · intro j hj
        simp [List.getElem?_set_ne (fun hh => hj hh.symm)]
      · intro j hj
        simp [List.getElem?_set_ne (fun hh => hj hh.symm)]
      · intro j o e hj hsome
        have he := hepoch j o e hsome
        constructor <;> simp <;> omega
      · intro j o e hj hsome t ar2
        have he := hepoch j o e hsome
        have hne : (e = w.klass.epoch + 1) = False := by simp; omega
        cases o <;> cases ar2 <;> simp [fast_enter, hne]

theorem bulk_rebias_epoch_invalidation_witness :
    ((⟨⟨true, 0⟩, [Header.biased (some 1) 0, Header.biased none 0]⟩ : TypeWorld).klass.biasable
        = true ∧
      ∀ h ∈ (⟨⟨true, 0⟩, [Header.biased (some 1) 0, Header.biased none 0]⟩ : TypeWorld).objs,
        hdrEpoch h ≤ 0) ∧
    (bulk_revoke_or_rebias_at_safepoint
        ⟨⟨true, 0⟩, [Header.biased (some 1) 0, Header.biased none 0]⟩ 0 true true 7).1.klass.epoch
      = 1 :=
  ⟨⟨by decide, by decide⟩,
    (bulk_rebias_epoch_invalidation
      ⟨⟨true, 0⟩, [Header.biased (some 1) 0, Header.biased none 0]⟩ 0 true 7
      (by decide) (by decide)).1⟩

/-- Claim C6: bulk revoke resets the type's prototype so biasing is
permanently disallowed: it reports `BIAS_REVOKED`, leaves the prototype
non-biasable, no subsequent lock entry on an instance of the type
installs a biased header, subsequent revocation requests on biased
instances report `BIAS_REVOKED` (never `BIAS_REVOKED_AND_REBIASED`),
and any further bulk operation keeps the type non-biasable. -/
theorem bulk_revoke_disables_biasing (w : TypeWorld) (i : Nat) (ar : Bool)
    (req : ThreadId) :
    (bulk_revoke_or_rebias_at_safepoint w i false ar req).2 = Condition.BIAS_REVOKED ∧
    (bulk_revoke_or_rebias_at_safepoint w i false ar req).1.klass.biasable = false ∧
    (∀ en h t ar2 o e,
        (fast_enter en (bulk_revoke_or_rebias_at_safepoint w i false ar req).1.klass
            h t ar2).header ≠ Header.biased o e) ∧
    (∀ ob e ar2 t,
        (revoke_and_rebias (bulk_revoke_or_rebias_at_safepoint w i false ar req).1.klass
            (Header.biased ob e) ar2 t).2 = Condition.BIAS_REVOKED) ∧
    (∀ j b a r, (bulk_revoke_or_rebias_at_safepoint
        (bulk_revoke_or_rebias_at_safepoint w i false ar req).1 j b a r).1.klass.biasable
      = false) := by
  refine ⟨by simp [bulk_revoke_or_rebias_at_safepoint], by simp [bulk_revoke_or_rebias_at_safepoint], ?_, ?_, ?_⟩
  · intro en h t ar2 o e
    have hbf : (bulk_revoke_or_rebias_at_safepoint w i false ar req).1.klass.biasable
        = false := by simp [bulk_revoke_or_rebias_at_safepoint]
    cases h with
    | biased ob eb =>
        cases ob <;> simp [fast_enter, hbf]
    | unlocked hash => simp [fast_enter]
    | thinLocked o2 =>
        by_cases hoq : o2 = t <;> simp [fast_enter, hoq]
    | fatLocked m => simp [fast_enter]
  · intro ob e ar2 t
    simp [revoke_and_rebias, bulk_revoke_or_rebias_at_safepoint]
  · intro j b a r
    simp [bulk_revoke_or_rebias_at_safepoint]

/-- Claim C4: `deflate_monitor` reclaims a monitor iff it is unowned
with empty wait and entry queues; deflating a monitor with an active
owner or non-empty wait set is a no-op; and `inflate` immediately
followed by deflation while the object is unowned restores the
unlocked header exactly (identity hash retained) with the monitor moved
to the free list. -/
theorem deflate_monitor_correct (s : ObjState) (m : ObjectMonitor)
    (free : List ObjectMonitor) (hm : s.mon = some m) :
    ((deflate_monitor s free).2.2 = true ↔ eligibleForDeflation m = true) ∧
    (eligibleForDeflation m = false → deflate_monitor s free = (s, free, false)) ∧
    (∀ hash, deflate_monitor (inflate ⟨Header.unlocked hash, none⟩) free
      = (⟨Header.unlocked hash, none⟩, free ++ [⟨none, 0, [], [], Header.unlocked hash⟩], true)) := by
  refine ⟨?_, ?_, ?_⟩
  · simp only [deflate_monitor, hm]
    by_cases he : eligibleForDeflation m = true <;> simp [he]
  · intro he
    simp [deflate_monitor, hm, he]
  · intro hash
    simp [inflate, deflate_monitor, eligibleForDeflation]

theorem deflate_monitor_correct_witness :
    ((⟨Header.fatLocked 0, some ⟨some 3, 0, [], [], Header.unlocked none⟩⟩ : ObjState).mon
        = some ⟨some 3, 0, [], [], Header.unlocked none⟩) ∧
    ((deflate_monitor ⟨Header.fatLocked 0, some ⟨some 3, 0, [], [], Header.unlocked none⟩⟩ []).2.2
        = true ↔ eligibleForDeflation ⟨some 3, 0, [], [], Header.unlocked none⟩ = true) :=
  ⟨by decide,
    (deflate_monitor_correct ⟨Header.fatLocked 0, some ⟨some 3, 0, [], [], Header.unlocked none⟩⟩
      ⟨some 3, 0, [], [], Header.unlocked none⟩ [] (by decide)).1⟩

/-- Claim C7: for a thread holding a monitor at any recursion depth,
`complete_exit` fully releases it (the thread no longer holds the
lock) and returns the prior recursion count, and `reenter` with that
count restores exactly the prior monitor state, making the thread hold
the lock again. -/
theorem complete_exit_reenter_roundtrip (m : ObjectMonitor) (t : ThreadId)
    (hold : current_thread_holds_lock t m = true) :
    current_thread_holds_lock t (complete_exit m t).1 = false ∧
    (complete_exit m t).2 = m.recursions ∧
    reenter (complete_exit m t).1 t (complete_exit m t).2 = m ∧
    current_thread_holds_lock t (reenter (complete_exit m t).1 t (complete_exit m t).2) = true := by
  have howner : m.owner = some t := by
    simpa [current_thread_holds_lock] using hold
  obtain ⟨ow, rc, ws, eq, d⟩ := m
  simp only [ObjectMonitor.owner] at howner
  subst howner
  simp [complete_exit, reenter, current_thread_holds_lock]

theorem complete_exit_reenter_roundtrip_witness :
    current_thread_holds_lock 3 ⟨some 3, 2, [], [9], Header.unlocked none⟩ = true ∧
    reenter (complete_exit ⟨some 3, 2, [], [9], Header.unlocked none⟩ 3).1 3
        (complete_exit ⟨some 3, 2, [], [9], Header.unlocked none⟩ 3).2
      = ⟨some 3, 2, [], [9], Header.unlocked none⟩ :=
  ⟨by decide,
    (complete_exit_reenter_roundtrip ⟨some 3, 2, [], [9], Header.unlocked none⟩ 3 (by decide)).2.2.1⟩

/-- Claim C8: `fast_exit` and `slow_exit` never block the calling
thread, for every header variant (biased, thin, fat), every lock
record and every monitor state — unlike `fast_enter`, whose contended
paths do block. -/
theorem exit_nonblocking (h : Header) (lr : Option Header) (t : ThreadId)
    (mo : Option ObjectMonitor) :
    (fast_exit h lr t mo).effect ≠ Effect.blockCaller ∧
    (slow_exit h lr t mo).effect ≠ Effect.blockCaller := by
  have hfast : (fast_exit h lr t mo).effect ≠ Effect.blockCaller := by
    cases h with
    | biased o e => simp [fast_exit]
    | unlocked hash => simp [fast_exit]
    | thinLocked o =>
        cases lr with
        | none => simp [fast_exit]
        | some d => by_cases hq : o = t <;> simp [fast_exit, hq]
    | fatLocked mid =>
        cases mo with
        | none => simp [fast_exit]
        | some m =>
            simp only [fast_exit]
            by_cases hq : m.owner = some t
            · by_cases hr : m.recursions ≠ 0
              · simp [monExit, hq, hr]
              · cases hqueue : m.entryQueue <;> simp [monExit, hq, hr, hqueue]
            · simp [monExit, hq]
  exact ⟨hfast, by simpa [slow_exit] using hfast⟩

lemma vmRun_pending (n c due : Nat) (hlt : c + n < due) :
    vmRun n ⟨c, false, some due⟩ = ⟨c + n, false, some due⟩ := by
  induction n generalizing c with
  | zero => simp [vmRun]
  | succ n ih =>
      have hnot : ¬ due ≤ c + 1 := by omega
      have hstep : vmTick ⟨c, false, some due⟩ = ⟨c + 1, false, some due⟩ := by
        simp [vmTick, hnot]
      have harith : c + 1 + n < due := by omega
      calc vmRun (n + 1) ⟨c, false, some due⟩
          = vmRun n (vmTick ⟨c, false, some due⟩) := by simp [vmRun]
        _ = vmRun n ⟨c + 1, false, some due⟩ := by rw [hstep]
        _ = ⟨c + 1 + n, false, some due⟩ := ih (c + 1) harith
        _ = ⟨c + (n + 1), false, some due⟩ := by
              have : c + 1 + n = c + (n + 1) := by omega
              rw [this]

/-- Claim C9: after `biasedLocking_init`, biased locking stays globally
disabled for every run shorter than the startup delay, and while the
switch is off no lock entry installs a biased header — every object
locked in that window uses thin or fat locking. -/
theorem startup_window_no_bias (v : VMState) (n : Nat)
    (hn : n < BiasedLockingStartupDelay) :
    biasedLocking_enabled (vmRun n (biasedLocking_init v)) = false ∧
    (∀ (k : KlassState) (h : Header) (t : ThreadId) (ar : Bool) (o : Option ThreadId) (e : Nat),
        (fast_enter (biasedLocking_enabled (vmRun n (biasedLocking_init v))) k h t ar).header
          ≠ Header.biased o e) := by
  have hrun : vmRun n (biasedLocking_init v)
      = ⟨v.clock + n, false, some (v.clock + BiasedLockingStartupDelay)⟩ := by
    have := vmRun_pending n v.clock (v.clock + BiasedLockingStartupDelay) (by omega)
    simpa [biasedLocking_init] using this
  have hoff : biasedLocking_enabled (vmRun n (biasedLocking_init v)) = false := by
    rw [hrun]; simp [biasedLocking_enabled]
  refine ⟨hoff, ?_⟩
  intro k h t ar o e
  rw [hoff]
  cases h with
  | biased ob eb => cases ob <;> simp [fast_enter]
  | unlocked hash => simp [fast_enter]
  | thinLocked o2 => by_cases hq : o2 = t <;> simp [fast_enter, hq]
  | fatLocked m => simp [fast_enter]

theorem startup_window_no_bias_witness :
    0 < BiasedLockingStartupDelay ∧
    biasedLocking_enabled (vmRun 0 (biasedLocking_init ⟨0, false, none⟩)) = false :=
  ⟨by decide, (startup_window_no_bias ⟨0, false, none⟩ 0 (by decide)).1⟩

/-- Claim C10: an `ObjectLocker` whose (uncontended) construction
acquires the lock always releases it exactly once in its destructor:
the paired construct/destruct never raises an
IllegalMonitorStateException, and for an initially unlocked object the
destructor restores the original header — balanced locking by
construction (synchronizer.hpp lines 202-206). -/
theorem objectLocker_balanced (doLock en : Bool) (k : KlassState) (t : ThreadId)
    (h : Header) (hnc : (fast_enter en k h t false).effect ≠ Effect.blockCaller) :
    (objectLocker_destruct doLock t (objectLocker_construct doLock en k t h)).2 = false ∧
    (∀ hash, h = Header.unlocked hash → doLock = true →
        (objectLocker_destruct doLock t (objectLocker_construct doLock en k t h)).1 = h) := by
  cases doLock with
  | false => simp [objectLocker_construct, objectLocker_destruct]
  | true =>
      constructor
      · cases h with
        | biased ob eb =>
            cases ob with
            | none =>
                by_cases hen : en ∧ k.biasable = true
                · by_cases heb : eb = k.epoch <;>
                    simp [objectLocker_construct, objectLocker_destruct, fast_enter, fast_exit,
                      hen, heb]
                · simp [objectLocker_construct, objectLocker_destruct, fast_enter, fast_exit, hen]
            | some o =>
                by_cases hen : en ∧ k.biasable = true
                · by_cases heb : eb = k.epoch
                  · by_cases ho : o = t <;>
                      simp [objectLocker_construct, objectLocker_destruct, fast_enter, fast_exit,
                        hen, heb, ho]
                  · simp [objectLocker_construct, objectLocker_destruct, fast_enter, fast_exit,
                      hen, heb]
                · simp [objectLocker_construct, objectLocker_destruct, fast_enter, fast_exit, hen]
        | unlocked hash =>
            simp [objectLocker_construct, objectLocker_destruct, fast_enter, fast_exit]
        | thinLocked o =>
            by_cases ho : o = t
            · simp [objectLocker_construct, objectLocker_destruct, fast_enter, fast_exit, ho]
            · exfalso
              apply hnc
              simp [fast_enter, ho]
        | fatLocked m =>
            exfalso
            apply hnc
            simp [fast_enter]
      · intro hash hh _
        subst hh
        simp [objectLocker_construct, objectLocker_destruct, fast_enter, fast_exit]

theorem objectLocker_balanced_witness :
    (fast_enter true ⟨true, 0⟩ (Header.unlocked (some 42)) 3 false).effect
        ≠ Effect.blockCaller ∧
    (objectLocker_destruct true 3
        (objectLocker_construct true true ⟨true, 0⟩ 3 (Header.unlocked (some 42)))).2 = false :=
  ⟨by decide,
    (objectLocker_balanced true true ⟨true, 0⟩ 3 (Header.unlocked (some 42)) (by decide)).1⟩

lemma transfer_lists_src (src dst : Loc) (kn : Nat) (p : MonPool) :
    (transfer src dst kn p).lists src = (p.lists src).drop kn := by
  simp [transfer]

lemma transfer_lists_dst (src dst : Loc) (kn : Nat) (p : MonPool) (h : src ≠ dst) :
    (transfer src dst kn p).lists dst = (p.lists src).take kn ++ p.lists dst := by
  simp [transfer, Ne.symm h]

lemma transfer_lists_other (src dst l : Loc) (kn : Nat) (p : MonPool)
    (h1 : l ≠ src) (h2 : l ≠ dst) :
    (transfer src dst kn p).lists l = p.lists l := by
  simp [transfer, h1, h2]

lemma take_drop_disjoint (xs : List MonId) (kn : Nat) (hnd : xs.Nodup) :
    ∀ m ∈ xs.take kn, m ∉ xs.drop kn := by
  intro m hmt hmd
  have hsplit : xs.take kn ++ xs.drop kn = xs := List.take_append_drop kn xs
  have : (xs.take kn ++ xs.drop kn).Nodup := by rw [hsplit]; exact hnd
  rw [List.nodup_append] at this
  exact this.2.2 hmt hmd

lemma transfer_mem_cases (src dst l : Loc) (kn : Nat) (p : MonPool) (hsd : src ≠ dst)
    (m : MonId) (hm : m ∈ (transfer src dst kn p).lists l) :
    m ∈ p.lists l ∨ (l = dst ∧ m ∈ p.lists src) := by
  by_cases h1 : l = src
  · rw [h1, transfer_lists_src] at hm
    rw [h1]
    exact Or.inl (List.mem_of_mem_drop hm)
  · by_cases h2 : l = dst
    · rw [h2, transfer_lists_dst src dst kn p hsd] at hm
      rcases List.mem_append.mp hm with hmt | hmd
      · exact Or.inr ⟨h2, List.mem_of_mem_take hmt⟩
      · rw [h2]
        exact Or.inl hmd
    · rw [transfer_lists_other src dst l kn p h1 h2] at hm
      exact Or.inl hm

lemma transfer_exclusive (src dst : Loc) (kn : Nat) (p : MonPool)
    (hsd : src ≠ dst) (he : Exclusive p) : Exclusive (transfer src dst kn p) := by
  obtain ⟨hnd, hdisj, hbound, htotal⟩ := he
  have htd := take_drop_disjoint (p.lists src) kn (hnd src)
  refine ⟨?_, ?_, ?_, ?_⟩
  · intro l
    by_cases h1 : l = src
    · rw [h1, transfer_lists_src]
      exact (hnd src).sublist (List.drop_sublist kn (p.lists src))
    · by_cases h2 : l = dst
      · rw [h2, transfer_lists_dst src dst kn p hsd]
        rw [List.nodup_append]
        refine ⟨(hnd src).sublist (List.take_sublist kn (p.lists src)), hnd dst, ?_⟩
        intro m hmt hmd
        exact hdisj src dst m hsd (List.mem_of_mem_take hmt) hmd
      · rw [transfer_lists_other src dst l kn p h1 h2]
        exact hnd l
  · intro l1 l2 m hne hm1 hm2
    by_cases h1s : l1 = src
    · rw [h1s, transfer_lists_src] at hm1
      by_cases h2d : l2 = dst
      · rw [h2d, transfer_lists_dst src dst kn p hsd] at hm2
        rcases List.mem_append.mp hm2 with hmt | hmd
        · exact htd m hmt hm1
        · exact hdisj src dst m hsd (List.mem_of_mem_drop hm1) hmd
      · by_cases h2s : l2 = src
        · exact hne (h1s.trans h2s.symm)
        · rw [transfer_lists_other src dst l2 kn p h2s h2d] at hm2
          have : l2 ≠ src := h2s
          exact hdisj src l2 m (fun hq => h2s hq.symm) (List.mem_of_mem_drop hm1) hm2
    · by_cases h1d : l1 = dst
      · rw [h1d, transfer_lists_dst src dst kn p hsd] at hm1
        rcases List.mem_append.mp hm1 with hmt1 | hmd1
        · by_cases h2s : l2 = src
          · rw [h2s, transfer_lists_src] at hm2
            exact htd m hmt1 hm2
          · by_cases h2d : l2 = dst
            · exact hne (h1d.trans h2d.symm)
            · rw [transfer_lists_other src dst l2 kn p h2s h2d] at hm2
              exact hdisj src l2 m (fun hq => h2s hq.symm) (List.mem_of_mem_take hmt1) hm2
        · by_cases h2s : l2 = src
          · rw [h2s, transfer_lists_src] at hm2
            exact hdisj dst src m (Ne.symm hsd) hmd1 (List.mem_of_mem_drop hm2)
          · by_cases h2d : l2 = dst
            · exact hne (h1d.trans h2d.symm)
            · rw [transfer_lists_other src dst l2 kn p h2s h2d] at hm2
              exact hdisj dst l2 m (fun hq => h2d hq.symm) hmd1 hm2
      · rw [transfer_lists_other src dst l1 kn p h1s h1d] at hm1
        by_cases h2s : l2 = src
        · rw [h2s, transfer_lists_src] at hm2
          exact hdisj l1 src m h1s hm1 (List.mem_of_mem_drop hm2)
        · by_cases h2d : l2 = dst
          · rw [h2d, transfer_lists_dst src dst kn p hsd] at hm2
            rcases List.mem_append.mp hm2 with hmt | hmd
            · exact hdisj l1 src m h1s hm1 (List.mem_of_mem_take hmt)
            · exact hdisj l1 dst m h1d hm1 hmd
          · rw [transfer_lists_other src dst l2 kn p h2s h2d] at hm2
            exact hdisj l1 l2 m hne hm1 hm2
  · intro l m hm
    rcases transfer_mem_cases src dst l kn p hsd m hm with ha | ⟨_, ha⟩
    · exact hbound l m ha
    · exact hbound src m ha
  · intro m hmlt
    obtain ⟨l, hl⟩ := htotal m hmlt
    by_cases h1 : l = src
    · rw [h1] at hl
      rw [← List.take_append_drop kn (p.lists src)] at hl
      rcases List.mem_append.mp hl with hmt | hmd
      · refine ⟨dst, ?_⟩
        rw [transfer_lists_dst src dst kn p hsd]
        exact List.mem_append.mpr (Or.inl hmt)
      · refine ⟨src, ?_⟩
        rw [transfer_lists_src]
        exact hmd
    · by_cases h2 : l = dst
      · refine ⟨dst, ?_⟩
        rw [transfer_lists_dst src dst kn p hsd]
        rw [h2] at hl
        exact List.mem_append.mpr (Or.inr hl)
      · refine ⟨l, ?_⟩
        rw [transfer_lists_other src dst l kn p h1 h2]
        exact hl

lemma freshBlock_lists_self (t : ThreadId) (p : MonPool) :
    (freshBlock t p).lists (Loc.tFree t)
      = (List.range BLOCKSIZE).map (fun j => p.nextId + j) ++ p.lists (Loc.tFree t) := by
  simp [freshBlock]

lemma freshBlock_lists_other (t : ThreadId) (p : MonPool) (l : Loc)
    (h : l ≠ Loc.tFree t) : (freshBlock t p).lists l = p.lists l := by
  simp [freshBlock, h]

lemma freshBlock_exclusive (t : ThreadId) (p : MonPool) (he : Exclusive p) :
    Exclusive (freshBlock t p) := by
  obtain ⟨hnd, hdisj, hbound, htotal⟩ := he
  have hfresh_mem : ∀ m : Nat, m ∈ (List.range BLOCKSIZE).map (fun j => p.nextId + j) →
      p.nextId ≤ m ∧ m < p.nextId + BLOCKSIZE := by
    intro m hm
    rcases List.mem_map.mp hm with ⟨j, hj, rfl⟩
    have := List.mem_range.mp hj
    omega
  have hmem_new : ∀ l (m : Nat), m ∈ (freshBlock t p).lists l →
      m ∈ p.lists l ∨ (l = Loc.tFree t ∧ p.nextId ≤ m ∧ m < p.nextId + BLOCKSIZE) := by
    intro l m hm
    by_cases hl : l = Loc.tFree t
    · rw [hl, freshBlock_lists_self] at hm
      rcases List.mem_append.mp hm with hnew | hold
      · exact Or.inr ⟨hl, hfresh_mem m hnew⟩
      · rw [hl]
        exact Or.inl hold
    · rw [freshBlock_lists_other t p l hl] at hm
      exact Or.inl hm
  refine ⟨?_, ?_, ?_, ?_⟩
  · intro l
    by_cases hl : l = Loc.tFree t
    · rw [hl, freshBlock_lists_self]
      rw [List.nodup_append]
      refine ⟨?_, hnd (Loc.tFree t), ?_⟩
      · exact List.Nodup.map (fun a b hab => Nat.add_left_cancel hab) (List.nodup_range BLOCKSIZE)
      · intro m hmn hmo
        have h1 := hfresh_mem m hmn
        have h2 := hbound (Loc.tFree t) m hmo
        omega
    · rw [freshBlock_lists_other t p l hl]
      exact hnd l
  · intro l1 l2 m hne hm1 hm2
    rcases hmem_new l1 m hm1 with ha | ⟨hl1, ha⟩
    · rcases hmem_new l2 m hm2 with hb | ⟨hl2, hb⟩
      · exact hdisj l1 l2 m hne ha hb
      · have := hbound l1 m ha
        omega
    · rcases hmem_new l2 m hm2 with hb | ⟨hl2, hb⟩
      · have := hbound l2 m hb
        omega
      · exact hne (hl1.trans hl2.symm)
  · intro l m hm
    show m < p.nextId + BLOCKSIZE
    rcases hmem_new l m hm with ha | ⟨_, ha⟩
    · have := hbound l m ha
      omega
    · omega
  · intro m hmlt
    have hmlt2 : m < p.nextId + BLOCKSIZE := hmlt
    by_cases hold : m < p.nextId
    · obtain ⟨l, hl⟩ := htotal m hold
      by_cases hlf : l = Loc.tFree t
      · refine ⟨Loc.tFree t, ?_⟩
        rw [freshBlock_lists_self]
        rw [hlf] at hl
        exact List.mem_append.mpr (Or.inr hl)
      · refine ⟨l, ?_⟩
        rw [freshBlock_lists_other t p l hlf]
        exact hl
    · refine ⟨Loc.tFree t, ?_⟩
      rw [freshBlock_lists_self]
      refine List.mem_append.mpr (Or.inl ?_)
      refine List.mem_map.mpr ⟨m - p.nextId, List.mem_range.mpr (by omega), by omega⟩

lemma omAlloc_exclusive (t : ThreadId) (p : MonPool) (he : Exclusive p) :
    Exclusive (omAlloc t p) := by
  unfold omAlloc
  split_ifs with h1 h2
  · exact transfer_exclusive _ _ _ _ (by simp) he
  · refine transfer_exclusive _ _ _ _ (by simp) ?_
    exact transfer_exclusive _ _ _ _ (by simp) he
  · refine transfer_exclusive _ _ _ _ (by simp) ?_
    exact freshBlock_exclusive t p he

lemma omRelease_exclusive (t : ThreadId) (b : Bool) (p : MonPool) (he : Exclusive p) :
    Exclusive (omRelease t b p) := by
  unfold omRelease
  cases b <;> exact transfer_exclusive _ _ _ _ (by simp) he

lemma omFlush_exclusive (t : ThreadId) (p : MonPool) (he : Exclusive p) :
    Exclusive (omFlush t p) := by
  unfold omFlush
  refine transfer_exclusive _ _ _ _ (by simp) ?_
  exact transfer_exclusive _ _ _ _ (by simp) he

/-- Claim C5: every monitor-moving operation — `omAlloc` (also the list
effect of inflation), `omRelease`, `omFlush`, and deflation of the
thread-local or global in-use list — preserves the membership
invariant that each monitor is on exactly one list; in particular,
after any such operation no monitor is simultaneously on the
allocating thread's in-use list and on a free list. -/
theorem monitor_list_exclusivity (p : MonPool) (t : ThreadId) (b : Bool) (kn : Nat)
    (he : Exclusive p) :
    Exclusive (omAlloc t p) ∧
    Exclusive (inflateListMove t p) ∧
    Exclusive (omRelease t b p) ∧
    Exclusive (omFlush t p) ∧
    Exclusive (deflateThreadList t kn p) ∧
    Exclusive (deflateGlobalList kn p) ∧
    (∀ m, m ∈ (omAlloc t p).lists (Loc.tInUse t) →
        m ∉ (omAlloc t p).lists (Loc.tFree t) ∧ m ∉ (omAlloc t p).lists Loc.gFreeL) := by
  have halloc := omAlloc_exclusive t p he
  refine ⟨halloc, halloc, omRelease_exclusive t b p he, omFlush_exclusive t p he,
    transfer_exclusive _ _ _ _ (by simp) he,
    transfer_exclusive _ _ _ _ (by simp) he, ?_⟩
  intro m hm
  obtain ⟨_, hdisj, _, _⟩ := halloc
  exact ⟨hdisj (Loc.tInUse t) (Loc.tFree t) m (by simp) hm,
    hdisj (Loc.tInUse t) Loc.gFreeL m (by simp) hm⟩

theorem monitor_list_exclusivity_witness :
    Exclusive ⟨fun _ => [], 0⟩ ∧ Exclusive (omAlloc 0 ⟨fun _ => [], 0⟩) :=
  have hempty : Exclusive ⟨fun _ => [], 0⟩ :=
    ⟨fun _ => List.nodup_nil, fun _ _ m _ hm => absurd hm (List.not_mem_nil m),
      fun _ m hm => absurd hm (List.not_mem_nil m), fun m hm => absurd hm (Nat.not_lt_zero m)⟩
  ⟨hempty, (monitor_list_exclusivity ⟨fun _ => [], 0⟩ 0 true 0 hempty).1⟩
